import Mathlib

/-!
Shallow embedding of the fuzzy person-search engine
(src/backend/search/search_queries.py) for verification.

Modelling conventions:
* A person record mirrors a row of the `persons` table; the database is a
  `List Person` in table-scan order.  A SQL `SELECT ... WHERE cond LIMIT n`
  (no ORDER BY) is modelled as `(db.filter cond).take n`, i.e. the first `n`
  rows in scan order.
* MySQL string comparison under the default case-insensitive collation is
  modelled as equality after ASCII lowercasing; `LIKE` (with its `%`, `_`
  wildcards and `\` escape) is modelled by `likeMatch`, case-insensitively.
* Python `str.lower` / SQL `LOWER` are modelled by ASCII `Char.toLower`
  (all strings of interest are ASCII).
* Python floats: every score produced by the engine is of the form
  `w` or `30 / (d + 1)` with `d ≤ 3`, all of which (and their sums here)
  are exactly representable in binary floating point, so scores are
  modelled exactly by `ℚ`.
* Python `dict`s (insertion-ordered) are modelled as association lists.
* Python's `sorted`/`list.sort` are stable; a stable sort by a key is
  modelled by `List.insertionSort` (stable) with the corresponding
  relation, and — for the final descending sort — by the equivalent
  lexicographic sort on (score descending, insertion position ascending).
-/

namespace FuzzySearch

/-- A row of the `persons` table (see populate_database.py): an id, the two
name parts, the derived full name and an email (unused by matching). -/
structure Person where
  id : Nat
  first_name : String
  last_name : String
  full_name : String
  email : String := ""
deriving DecidableEq, Repr

/-- The record store: the `persons` table in scan order. -/
abbrev DB := List Person

/-- ASCII lowercasing of a string, as a character list.  Models Python
`str.lower()` and SQL `LOWER()` on the ASCII strings the engine handles. -/
def lowers (s : String) : List Char := s.toList.map Char.toLower

/-- MySQL `=` on strings under the default case-insensitive collation:
equality after lowercasing. -/
def eqCI (a b : String) : Bool := lowers a == lowers b

/-- MySQL `LIKE` pattern matching: `%` matches any sequence, `_` any single
character, `\` escapes the next pattern character; the pattern must cover
the whole string.  (Backslash is MySQL's default escape character.) -/
def likeMatch : List Char → List Char → Bool
  | [], s => s.isEmpty
  | p :: ps, s =>
    if p = '%' then (s.tails).any (fun t => likeMatch ps t)
    else if p = '_' then
      match s with
      | [] => false
      | _ :: s2 => likeMatch ps s2
    else if p = Char.ofNat 92 then
      match ps with
      | [] =>
        (match s with
         | [] => false
         | c :: s2 => c == p && likeMatch [] s2)
      | p2 :: ps2 =>
        (match s with
         | [] => false
         | c :: s2 => c == p2 && likeMatch ps2 s2)
    else
      match s with
      | [] => false
      | c :: s2 => c == p && likeMatch ps s2

/-- `LIKE` under the default case-insensitive collation. -/
def sqlLike (pat : List Char) (s : String) : Bool :=
  likeMatch (pat.map Char.toLower) (lowers s)

/-- normalize_string (search_queries.py:35-38):
`re.sub(r'[^a-zA-Z0-9]', '', s).lower()` — drop every character that is not
an ASCII letter or digit, then lowercase. -/
def normalize_string (s : String) : String :=
  String.mk ((s.toList.filter (fun c => c.isAlpha || c.isDigit)).map Char.toLower)

/-- The name normalization the SQL side of normalized_search performs
(search_queries.py:70-72):
`REPLACE(REPLACE(REPLACE(LOWER(x), ' ', ''), "'", ''), '-', '')` —
lowercase, then remove spaces, apostrophes and hyphens (only). -/
def sqlNameNormalize (s : String) : String :=
  String.mk ((lowers s).filter (fun c => !(c == ' ' || c == Char.ofNat 39 || c == '-')))

/-- exact_search (search_queries.py:40-50): rows whose first, last or full
name equals the search term, first 10 in scan order. -/
def exact_search (q : String) (db : DB) : List Person :=
  (db.filter (fun p => eqCI p.first_name q || eqCI p.last_name q || eqCI p.full_name q)).take 10

/-- The LIKE pattern `f"%{search_term}%"` of wildcard_search. -/
def wildcardPattern (q : String) : List Char := '%' :: (q.toList ++ ['%'])

/-- wildcard_search (search_queries.py:52-63): rows where `%term%` LIKE-matches
the first, last or full name, first 20 in scan order. -/
def wildcard_search (q : String) (db : DB) : List Person :=
  (db.filter (fun p => sqlLike (wildcardPattern q) p.first_name
      || sqlLike (wildcardPattern q) p.last_name
      || sqlLike (wildcardPattern q) p.full_name)).take 20

/-- normalized_search (search_queries.py:65-76): the Python-normalized search
term compared against the SQL-normalized name columns, first 20 matches. -/
def normalized_search (q : String) (db : DB) : List Person :=
  let n := normalize_string q
  (db.filter (fun p => sqlNameNormalize p.first_name == n
      || sqlNameNormalize p.last_name == n
      || sqlNameNormalize p.full_name == n)).take 20

/-- Soundex digit class of a (lowercased) letter.
Modelled from the spec: MySQL's built-in `SOUNDEX` is not part of the
repository; the spec (§4.2 Phonetic Coder) gives the algorithm:
b,f,p,v→1; c,g,j,k,q,s,x,z→2; d,t→3; l→4; m,n→5; r→6; vowels/h/w/y→none. -/
def soundexDigit (c : Char) : Option Nat :=
  if c = 'b' ∨ c = 'f' ∨ c = 'p' ∨ c = 'v' then some 1
  else if c = 'c' ∨ c = 'g' ∨ c = 'j' ∨ c = 'k' ∨ c = 'q' ∨ c = 's' ∨ c = 'x' ∨ c = 'z' then some 2
  else if c = 'd' ∨ c = 't' then some 3
  else if c = 'l' then some 4
  else if c = 'm' ∨ c = 'n' then some 5
  else if c = 'r' then some 6
  else none

/-- Soundex digit accumulation.  `last` is the digit class of the previously
coded letter (`none` after a vowel).  `h`/`w` and non-letters are transparent
(skipped without resetting `last`); other uncoded letters (vowels, y) reset
`last`; a coded letter emits its digit unless it repeats `last`. -/
def soundexAux : List Char → Option Nat → List Nat
  | [], _ => []
  | c :: cs, last =>
    if c.isAlpha then
      match soundexDigit c with
      | some d => if last = some d then soundexAux cs last else d :: soundexAux cs (some d)
      | none => if c = 'h' ∨ c = 'w' then soundexAux cs last else soundexAux cs none
    else soundexAux cs last

/-- Soundex code: uppercased first letter plus exactly three digits.
Modelled from the spec (§4.2): MySQL's built-in `SOUNDEX` is external to the
repository.  Leading non-letters are skipped; no letters at all gives `""`. -/
def soundex (s : String) : String :=
  match (s.toList.map Char.toLower).dropWhile (fun c => !c.isAlpha) with
  | [] => ""
  | f :: rest =>
    let digits := (soundexAux rest (soundexDigit f)).take 3
    String.mk (f.toUpper :: ((digits ++ List.replicate (3 - digits.length) 0).map
      (fun d => Char.ofNat (48 + d))))

/-- `REPLACE(x, ' ', '')`. -/
def removeSpaces (s : String) : String :=
  String.mk (s.toList.filter (fun c => !(c == ' ')))

/-- soundex_search (search_queries.py:90-100): rows whose first or last name
has the search term's Soundex code, or whose concatenated first+last name has
the Soundex code of the term with spaces removed; first 20 in scan order. -/
def soundex_search (q : String) (db : DB) : List Person :=
  (db.filter (fun p => soundex p.first_name == soundex q
      || soundex p.last_name == soundex q
      || soundex (p.first_name ++ p.last_name) == soundex (removeSpaces q))).take 20

/-- One row of the Levenshtein DP: `levNext c as p0 ps w` extends the row,
where `p0` is the previous row's entry on the diagonal, `ps` the rest of the
previous row, and `w` the entry just computed to the left. -/
def levNext (c : Char) : List Char → Nat → List Nat → Nat → List Nat
  | [], _, _, _ => []
  | _ :: _, _, [], _ => []
  | x :: xs, p0, p1 :: ps, w =>
    let v := min (p0 + (if x = c then 0 else 1)) (min (w + 1) (p1 + 1))
    v :: levNext c xs p1 ps v

/-- Advance the DP row by one character of the second string. -/
def levRow (a : List Char) (row : List Nat) (c : Char) : List Nat :=
  match row with
  | [] => []
  | p0 :: ps => (p0 + 1) :: levNext c a p0 ps (p0 + 1)

/-- Classic unit-cost Levenshtein edit distance, rolling-row dynamic program.
Modelled from the spec: the `LEVENSHTEIN` SQL function the code invokes
(search_queries.py:124) is not part of the repository; the spec (§4.3
Edit-Distance Calculator) specifies classic substitution/insertion/deletion
unit-cost edit distance with a rolling row. -/
def levenshtein (a b : List Char) : Nat :=
  (b.foldl (levRow a) (List.range (a.length + 1))).getLastD 0

/-- The candidate-pruning prefix of levenshtein_search (search_queries.py:105):
`search_term[:3] if len(search_term) >= 3 else search_term` (Python slicing:
the first three characters, or the whole term when shorter). -/
def levPrefix3 (q : String) : List Char :=
  if 3 ≤ q.length then q.toList.take 3 else q.toList

/-- The candidate query of levenshtein_search (search_queries.py:106-113):
rows whose first, last or full name LIKE-matches `prefix%` (no LIMIT). -/
def levCandidates (q : String) (db : DB) : List Person :=
  db.filter (fun p => sqlLike (levPrefix3 q ++ ['%']) p.first_name
    || sqlLike (levPrefix3 q ++ ['%']) p.last_name
    || sqlLike (levPrefix3 q ++ ['%']) p.full_name)

/-- Distances of the lowercased search term to the lowercased non-empty name
fields, in field order (search_queries.py:118-127); an empty (falsy) field is
skipped by `if candidate[field]:`. -/
def fieldDistances (q : String) (p : Person) : List Nat :=
  (([p.first_name, p.last_name, p.full_name].filter (fun f => !(f == ""))).map
    (fun f => levenshtein (lowers q) (lowers f)))

/-- The unsorted result accumulation of levenshtein_search
(search_queries.py:116-132): a candidate whose minimal field distance is at
most `maxDistance` is kept, tagged with that minimal distance. -/
def levResultsPre (q : String) (db : DB) (maxDistance : Nat) : List (Person × Nat) :=
  (levCandidates q db).filterMap (fun p =>
    match (fieldDistances q p).min? with
    | none => none
    | some d => if d ≤ maxDistance then some (p, d) else none)

/-- `results.sort(key=lambda x: x['levenshtein_distance'])` — stable ascending
sort by distance (search_queries.py:135). -/
def levSorted (q : String) (db : DB) (maxDistance : Nat) : List (Person × Nat) :=
  (levResultsPre q db maxDistance).insertionSort (fun a b => a.2 ≤ b.2)

/-- levenshtein_search (search_queries.py:102-136): prefix-pruned candidates
within distance `maxDistance` (default 3), sorted by distance, first 20. -/
def levenshtein_search (q : String) (db : DB) (maxDistance : Nat := 3) : List (Person × Nat) :=
  (levSorted q db maxDistance).take 20

/-- Python dict assignment `m[k] = v` on an insertion-ordered dict modelled as
an association list: overwrite in place if the key exists, else append. -/
def dictSet (m : List (Nat × Person)) (k : Nat) (v : Person) : List (Nat × Person) :=
  if m.any (fun kv => kv.1 == k) then m.map (fun kv => if kv.1 == k then (kv.1, v) else kv)
  else m ++ [(k, v)]

/-- `if key not in results: results[key] = r`. -/
def dictInsertNew (m : List (Nat × Person)) (k : Nat) (v : Person) : List (Nat × Person) :=
  if m.any (fun kv => kv.1 == k) then m else m ++ [(k, v)]

/-- `scores[key] = scores.get(key, 0) + w`. -/
def scoreAdd (m : List (Nat × ℚ)) (k : Nat) (w : ℚ) : List (Nat × ℚ) :=
  if m.any (fun kv => kv.1 == k) then
    m.map (fun kv => if kv.1 == k then (kv.1, kv.2 + w) else kv)
  else m ++ [(k, w)]

/-- `scores.get(key, 0)`. -/
def lookupScore (m : List (Nat × ℚ)) (k : Nat) : ℚ :=
  match m.find? (fun kv => kv.1 == k) with
  | some kv => kv.2
  | none => 0

/-- The `results` dict of combined_search (search_queries.py:140-182): the
representative row per record id, keyed by id, in discovery order — exact
first (unconditional assignment), then normalized, soundex, wildcard and
levenshtein results (guarded assignment). -/
def resultsDict (q : String) (db : DB) : List (Nat × Person) :=
  let m1 := (exact_search q db).foldl (fun m r => dictSet m r.id r) []
  let m2 := (normalized_search q db).foldl (fun m r => dictInsertNew m r.id r) m1
  let m3 := (soundex_search q db).foldl (fun m r => dictInsertNew m r.id r) m2
  let m4 := (wildcard_search q db).foldl (fun m r => dictInsertNew m r.id r) m3
  (levenshtein_search q db 3).foldl (fun m rd => dictInsertNew m rd.1.id rd.1) m4

/-- The `scores` dict of combined_search: +100 per exact result, +80 per
normalized, +60 per soundex, +40 per wildcard, and +30/(distance+1) per
levenshtein result. -/
def scoresDict (q : String) (db : DB) : List (Nat × ℚ) :=
  let s1 := (exact_search q db).foldl (fun m r => scoreAdd m r.id 100) []
  let s2 := (normalized_search q db).foldl (fun m r => scoreAdd m r.id 80) s1
  let s3 := (soundex_search q db).foldl (fun m r => scoreAdd m r.id 60) s2
  let s4 := (wildcard_search q db).foldl (fun m r => scoreAdd m r.id 40) s3
  (levenshtein_search q db 3).foldl
    (fun m rd => scoreAdd m rd.1.id (30 / ((rd.2 : ℚ) + 1))) s4

/-- Total fused score of record id `i` for query `q` (the final value
`scores[i]` in combined_search). -/
def fusedScore (q : String) (db : DB) (i : Nat) : ℚ := lookupScore (scoresDict q db) i

/-- The ordering used by `sorted(results.items(), key=lambda x: scores[x[0]],
reverse=True)`: score descending and, between equal scores, original
(insertion) position ascending — Python's `sorted` is stable, and a stable
descending sort equals the lexicographic sort by (score desc, position asc).
Elements carry their insertion position as the first component. -/
def combRel (s : List (Nat × ℚ)) (a b : Nat × Nat × Person) : Prop :=
  lookupScore s b.2.1 < lookupScore s a.2.1 ∨
    (lookupScore s a.2.1 = lookupScore s b.2.1 ∧ a.1 ≤ b.1)

instance combRelDecidable (s : List (Nat × ℚ)) : DecidableRel (combRel s) := fun _ _ =>
  inferInstanceAs (Decidable (_ ∨ _))

/-- The fused, fully sorted ranking of combined_search (search_queries.py:185)
before the top-10 cut: `results.items()` tagged with insertion positions,
sorted by score descending with ties in insertion order. -/
def fusedRanking (q : String) (db : DB) : List (Nat × Nat × Person) :=
  ((resultsDict q db).enum).insertionSort (combRel (scoresDict q db))

/-- combined_search (search_queries.py:138-186): run all five strategies,
fuse additively, sort by total score descending (stable), return the first
10 representative rows. -/
def combined_search (q : String) (db : DB) : List Person :=
  ((fusedRanking q db).take 10).map (fun x => x.2.2)

/-- One reaction of the interactive_search loop (search_queries.py:272-283) to
a line of input: strip it; `quit` exits; an empty remainder is skipped without
running any search; otherwise combined_search runs. -/
inductive InteractiveAction where
  | quit
  | skip
  | results (rs : List Person)
deriving DecidableEq, Repr

/-- Python `str.strip()`: drop leading and trailing whitespace. -/
def pyStrip (s : String) : String :=
  String.mk (((s.toList.dropWhile Char.isWhitespace).reverse.dropWhile Char.isWhitespace).reverse)

/-- The body of the interactive_search `while` loop for one input line:
`search_term = input(...).strip()`; `quit` (case-insensitively) exits; a term
that is empty after stripping is skipped (`continue`) without running any
search; otherwise combined_search runs on the stripped term. -/
def interactive_step (input : String) (db : DB) : InteractiveAction :=
  let t := pyStrip input
  if lowers t == "quit".toList then .quit
  else if t == "" then .skip
  else .results (combined_search t db)

/-! Derived notions used to state the claims. -/

/-- A character with no special meaning in a `LIKE` pattern: not `%`, `_` or
the escape character `\`. -/
def likeFree (c : Char) : Bool := !(c == '%' || c == '_' || c == Char.ofNat 92)

/-- `q` is a case-insensitive substring of `f`: some suffix of the lowered `f`
starts with the lowered `q`. -/
def containsCI (q f : String) : Bool :=
  ((lowers f).tails).any (fun t => (lowers q).isPrefixOf t)

/-- `f` starts, case-insensitively, with the character list `pre`. -/
def startsWithCI (pre : List Char) (f : String) : Bool :=
  (pre.map Char.toLower).isPrefixOf (lowers f)

/-- How often a record with id `i` occurs in a strategy's result list
(as a rational, so that score arithmetic stays in `ℚ`). -/
def countId (i : Nat) (l : List Person) : ℚ :=
  ((l.filter (fun p => p.id == i)).length : ℚ)

/-- The total levenshtein-strategy contribution for record id `i`:
`30 / (distance + 1)` per occurrence. -/
def levContribution (i : Nat) (l : List (Person × Nat)) : ℚ :=
  ((l.filter (fun rd => rd.1.id == i)).map (fun rd => (30 : ℚ) / ((rd.2 : ℚ) + 1))).sum

/-- Non-increasing total score, the order claimed for combined results. -/
def scoreGe (q : String) (db : DB) (a b : Person) : Prop :=
  fusedScore q db b.id ≤ fusedScore q db a.id

/-! Concrete inputs used by counterexamples and witnesses. -/

/-- Two records with identical names and different ids, listed with the larger
id first: both match the query `"ann"` by every strategy, with equal totals. -/
def cxP2 : Person := { id := 2, first_name := "ann", last_name := "x", full_name := "ann x" }

/-- See `cxP2`. -/
def cxP1 : Person := { id := 1, first_name := "ann", last_name := "x", full_name := "ann x" }

/-- A record no strategy matches for the empty query except the wildcard scan
(`%%` matches everything) and the unpruned edit-distance pass. -/
def cxEmptyQ : Person := { id := 1, first_name := "ab", last_name := "cd", full_name := "ab cd" }

/-- First name `A.B`: its Python normalization is `ab`, but the SQL-side
normalization (which only strips spaces, apostrophes and hyphens) is `a.b`. -/
def cxDotted : Person := { id := 1, first_name := "A.B", last_name := "x", full_name := "A.B x" }

/-- First name `-`: its SQL-side normalization is the empty string. -/
def cxHyphen : Person := { id := 1, first_name := "-", last_name := "x", full_name := "- x" }

/-- A record whose names contain `ab` but not `a%b`; the pattern built from
query `a%b` still LIKE-matches it. -/
def cxMeta : Person := { id := 1, first_name := "axb", last_name := "q", full_name := "axb q" }

/-- A record with an empty first name; the code skips the empty field when
taking the minimum edit distance. -/
def cxEmptyField : Person :=
  { id := 1, first_name := "", last_name := "abcxxxxx", full_name := " abcxxxxx" }

/-- A close edit-distance match for query `abc`. -/
def cxNear : Person := { id := 1, first_name := "abcd", last_name := "x", full_name := "abcd x" }

/-- The Mary-Ann test record of populate_database.py. -/
def cxMaryAnn : Person :=
  { id := 1, first_name := "MaryAnn", last_name := "Smith", full_name := "MaryAnn Smith" }

/-- Soundex blocker for the additivity witness: `apb` has the same Soundex
code `A100` as the query `a\b`, but matches no other strategy for it. -/
def cxBlocker (n : Nat) : Person :=
  { id := n, first_name := "apb", last_name := "q", full_name := "apb q" }

/-- For query `a\b`: matched exactly (first name) and by normalization (last
name `a-b`), but — thanks to the escape character in the query — by neither
LIKE-based strategy, and pushed out of the 20 Soundex slots by the blockers. -/
def cxX : Person := { id := 21, first_name := "a\\b", last_name := "a-b", full_name := "a\\b a-b" }

/-- For query `a\b`: matched only by the wildcard scan (contains `ab`). -/
def cxY : Person := { id := 22, first_name := "zabz", last_name := "q", full_name := "zabz q" }

/-- Twenty Soundex blockers, then `cxX`, then `cxY`. -/
def cxAdditiveDB : DB := ((List.range 20).map (fun n => cxBlocker (n + 1))) ++ [cxX, cxY]

/-- One of 21 identical records matching the query `"ann"` everywhere. -/
def cxCap (n : Nat) : Person :=
  { id := n, first_name := "ann", last_name := "x", full_name := "ann x" }

/-- 21 identical matchers: every strategy list is full before the last one. -/
def cxCapDB : DB := (List.range 21).map (fun n => cxCap (n + 1))

/-! Character-level facts about ASCII lowercasing. -/

theorem uint32_le_iff {a b : UInt32} : a ≤ b ↔ a.toNat ≤ b.toNat := by
  rw [UInt32.le_def, BitVec.le_def]
  exact Iff.rfl

theorem char_toNat_ofNat {n : Nat} (h : n < 55296) : (Char.ofNat n).toNat = n := by
  have hv : n.isValidChar := Or.inl h
  rw [Char.ofNat, dif_pos hv]
  rfl

theorem char_toLower_if (c : Char) :
    Char.toLower c = if 65 ≤ c.toNat ∧ c.toNat ≤ 90 then Char.ofNat (c.toNat + 32) else c := rfl

theorem char_isUpper_iff {c : Char} : c.isUpper = true ↔ 65 ≤ c.toNat ∧ c.toNat ≤ 90 := by
  simp [Char.isUpper, Bool.and_eq_true, decide_eq_true_iff, ge_iff_le, uint32_le_iff]
  exact Iff.rfl

theorem char_isLower_iff {c : Char} : c.isLower = true ↔ 97 ≤ c.toNat ∧ c.toNat ≤ 122 := by
  simp [Char.isLower, Bool.and_eq_true, decide_eq_true_iff, ge_iff_le, uint32_le_iff]
  exact Iff.rfl

theorem char_isDigit_iff {c : Char} : c.isDigit = true ↔ 48 ≤ c.toNat ∧ c.toNat ≤ 57 := by
  simp [Char.isDigit, Bool.and_eq_true, decide_eq_true_iff, ge_iff_le, uint32_le_iff]
  exact Iff.rfl

theorem char_toLower_toNat_of_upper {c : Char} (h : 65 ≤ c.toNat ∧ c.toNat ≤ 90) :
    (Char.toLower c).toNat = c.toNat + 32 := by
  rw [char_toLower_if, if_pos h, char_toNat_ofNat (by omega)]

theorem char_toLower_of_not_upper {c : Char} (h : ¬(65 ≤ c.toNat ∧ c.toNat ≤ 90)) :
    Char.toLower c = c := by
  rw [char_toLower_if, if_neg h]

theorem char_ne_of_toNat_ne {c d : Char} (h : c.toNat ≠ d.toNat) : c ≠ d :=
  fun he => h (by rw [he])

/-- The lowering of an ASCII letter or digit lands in `a`-`z` or `0`-`9`. -/
theorem alnum_toLower_range {c : Char} (h : (c.isAlpha || c.isDigit) = true) :
    (97 ≤ (Char.toLower c).toNat ∧ (Char.toLower c).toNat ≤ 122) ∨
      (48 ≤ (Char.toLower c).toNat ∧ (Char.toLower c).toNat ≤ 57) := by
  rcases Bool.or_eq_true .. |>.mp h with ha | hd
  · rcases Bool.or_eq_true .. |>.mp ha with hu | hl
    · left
      have := char_isUpper_iff.mp hu
      rw [char_toLower_toNat_of_upper this]
      omega
    · left
      have := char_isLower_iff.mp hl
      rw [char_toLower_of_not_upper (by omega)]
      omega
  · right
    have := char_isDigit_iff.mp hd
    rw [char_toLower_of_not_upper (by omega)]
    omega

theorem alnum_toLower {c : Char} (h : (c.isAlpha || c.isDigit) = true) :
    ((Char.toLower c).isAlpha || (Char.toLower c).isDigit) = true ∧
      Char.toLower (Char.toLower c) = Char.toLower c := by
  have hr := alnum_toLower_range h
  constructor
  · rcases hr with h1 | h1
    · have : (Char.toLower c).isLower = true := char_isLower_iff.mpr h1
      simp [Char.isAlpha, this]
    · have : (Char.toLower c).isDigit = true := char_isDigit_iff.mpr h1
      simp [this]
  · apply char_toLower_of_not_upper
    omega

/-! ### C9: the normalizer -/

/-- C9: `normalize_string` is idempotent, and its output never contains a
space, apostrophe or hyphen: it keeps only ASCII letters and digits,
lowercased, and lowering is stable on those. -/
theorem c9_claim (s : String) :
    normalize_string (normalize_string s) = normalize_string s ∧
    ∀ c ∈ (normalize_string s).toList, c ≠ ' ' ∧ c ≠ Char.ofNat 39 ∧ c ≠ '-' := by
  have hmem : ∀ c ∈ (normalize_string s).toList,
      ∃ b, (b.isAlpha || b.isDigit) = true ∧ c = Char.toLower b := by
    intro c hc
    have hc' : c ∈ (s.toList.filter (fun c => c.isAlpha || c.isDigit)).map Char.toLower := hc
    rcases List.mem_map.mp hc' with ⟨b, hb, hbe⟩
    exact ⟨b, (List.mem_filter.mp hb).2, hbe.symm⟩
  constructor
  · show String.mk _ = String.mk _
    congr 1
    have h1 : ((normalize_string s).toList.filter (fun c => c.isAlpha || c.isDigit))
        = (normalize_string s).toList := by
      apply List.filter_eq_self.mpr
      intro a ha
      rcases hmem a ha with ⟨b, hb, hbe⟩
      rw [hbe]
      exact (alnum_toLower hb).1
    rw [h1]
    have h2 : ∀ a ∈ (normalize_string s).toList, Char.toLower a = a := by
      intro a ha
      rcases hmem a ha with ⟨b, hb, hbe⟩
      rw [hbe]
      exact (alnum_toLower hb).2
    rw [List.map_congr_left h2, List.map_id']
    rfl
  · intro c hc
    rcases hmem c hc with ⟨b, hb, hbe⟩
    have hr := alnum_toLower_range hb
    rw [hbe] at *
    refine ⟨char_ne_of_toNat_ne ?_, char_ne_of_toNat_ne ?_, char_ne_of_toNat_ne ?_⟩
    · show _ ≠ (' ').toNat
      have : (' ').toNat = 32 := rfl
      omega
    · show _ ≠ (Char.ofNat 39).toNat
      have : (Char.ofNat 39).toNat = 39 := char_toNat_ofNat (by omega)
      omega
    · show _ ≠ ('-').toNat
      have : ('-').toNat = 45 := rfl
      omega

/-! LIKE-pattern facts: a pattern free of metacharacters, bracketed by `%`,
matches exactly the strings containing it. -/

theorem tails_any_isEmpty (s : List Char) : (s.tails).any (fun t => t.isEmpty) = true := by
  induction s with
  | nil => rfl
  | cons a s ih => simp [List.tails_cons, List.any_cons, ih]

theorem list_any_congr {α : Type} {l : List α} {f g : α → Bool} (h : ∀ x ∈ l, f x = g x) :
    l.any f = l.any g := by
  induction l with
  | nil => rfl
  | cons a l ih =>
    simp only [List.any_cons, h a (List.mem_cons_self a l),
      ih (fun x hx => h x (List.mem_cons_of_mem a hx))]

theorem likeFree_spec {c : Char} (h : likeFree c = true) :
    c ≠ '%' ∧ c ≠ '_' ∧ c ≠ Char.ofNat 92 := by
  simpa [likeFree, not_or, and_assoc] using h

theorem likeMatch_lit (lit : List Char) (hl : lit.all likeFree = true) :
    ∀ s : List Char, likeMatch (lit ++ ['%']) s = lit.isPrefixOf s := by
  induction lit with
  | nil =>
    intro s
    show likeMatch ['%'] s = _
    simp [likeMatch, tails_any_isEmpty, List.isPrefixOf]
  | cons c cs ih =>
    intro s
    rw [List.all_cons, Bool.and_eq_true] at hl
    obtain ⟨h1, h2, h3⟩ := likeFree_spec hl.1
    cases s with
    | nil =>
      rw [List.cons_append, likeMatch.eq_def]
      simp [h1, h2, h3, List.isPrefixOf]
    | cons y ys =>
      have hys := ih hl.2 ys
      rw [List.cons_append, likeMatch.eq_def]
      simp only [if_neg h1, if_neg h2, if_neg h3, hys, List.isPrefixOf]
      by_cases hcy : c = y
      · subst hcy
        rfl
      · rw [beq_eq_false_iff_ne.mpr (Ne.symm hcy), beq_eq_false_iff_ne.mpr hcy]

theorem likeMatch_pct (lit : List Char) (hl : lit.all likeFree = true) (s : List Char) :
    likeMatch ('%' :: (lit ++ ['%'])) s = s.tails.any (fun t => lit.isPrefixOf t) := by
  have h0 : likeMatch ('%' :: (lit ++ ['%'])) s
      = s.tails.any (fun t => likeMatch (lit ++ ['%']) t) := by
    rw [likeMatch.eq_def]
    simp
  rw [h0]
  exact list_any_congr (fun t _ => likeMatch_lit lit hl t)

theorem likeFree_toLower {c : Char} (h : likeFree c = true) :
    likeFree (Char.toLower c) = true := by
  by_cases hu : 65 ≤ c.toNat ∧ c.toNat ≤ 90
  · have hn := char_toLower_toNat_of_upper hu
    simp only [likeFree, Bool.not_eq_true', Bool.or_eq_false_iff, beq_eq_false_iff_ne, ne_eq]
    have e1 : ('%').toNat = 37 := rfl
    have e2 : ('_').toNat = 95 := rfl
    have e3 : (Char.ofNat 92).toNat = 92 := char_toNat_ofNat (by omega)
    refine ⟨⟨fun he => ?_, fun he => ?_⟩, fun he => ?_⟩ <;>
      · rw [he] at hn
        omega
  · rw [char_toLower_of_not_upper hu]
    exact h

theorem all_likeFree_map_toLower {l : List Char} (h : l.all likeFree = true) :
    (l.map Char.toLower).all likeFree = true := by
  rw [List.all_eq_true] at h ⊢
  intro c hc
  rcases List.mem_map.mp hc with ⟨b, hb, hbe⟩
  exact hbe ▸ likeFree_toLower (h b hb)

theorem sqlLike_wildcard (q f : String) (hq : q.toList.all likeFree = true) :
    sqlLike (wildcardPattern q) f = containsCI q f := by
  show likeMatch ((('%' : Char) :: (q.toList ++ ['%'])).map Char.toLower) (lowers f) = _
  have hmap : ((('%' : Char) :: (q.toList ++ ['%'])).map Char.toLower)
      = '%' :: ((q.toList.map Char.toLower) ++ ['%']) := by
    simp [List.map_cons, List.map_append]
  rw [hmap, likeMatch_pct (q.toList.map Char.toLower) (all_likeFree_map_toLower hq)]
  rfl

theorem levPrefix3_eq (q : String) : levPrefix3 q = q.toList.take 3 := by
  unfold levPrefix3
  split
  · rfl
  · next h =>
    have hlen : q.toList.length ≤ 3 := by
      have : q.length = q.toList.length := rfl
      omega
    rw [List.take_of_length_le hlen]

theorem sqlLike_prefix3 (q f : String) (hq : (q.toList.take 3).all likeFree = true) :
    sqlLike (levPrefix3 q ++ ['%']) f = startsWithCI (levPrefix3 q) f := by
  have hfree : (levPrefix3 q).all likeFree = true := by
    rw [levPrefix3_eq]
    exact hq
  show likeMatch ((levPrefix3 q ++ ['%']).map Char.toLower) (lowers f) = _
  have hmap : (levPrefix3 q ++ ['%']).map Char.toLower
      = ((levPrefix3 q).map Char.toLower) ++ ['%'] := by
    simp [List.map_append]
  rw [hmap, likeMatch_lit ((levPrefix3 q).map Char.toLower) (all_likeFree_map_toLower hfree)]
  rfl

/-! Score-dictionary facts: folding `scoreAdd` over a result list accumulates
one weighted contribution per occurrence of each key — scores are additive. -/

theorem lookupScore_nil (i : Nat) : lookupScore [] i = 0 := rfl

theorem lookupScore_cons (kv : Nat × ℚ) (m : List (Nat × ℚ)) (i : Nat) :
    lookupScore (kv :: m) i = if kv.1 = i then kv.2 else lookupScore m i := by
  unfold lookupScore
  by_cases h : kv.1 = i
  · rw [List.find?_cons_of_pos _ (by simp [h]), if_pos h]
  · rw [List.find?_cons_of_neg _ (by simp [h]), if_neg h]

theorem scoreAdd_key_map (kv : Nat × ℚ) (k : Nat) (w : ℚ) :
    ((if kv.1 == k then (kv.1, kv.2 + w) else kv) : Nat × ℚ).1 = kv.1 := by
  by_cases h : kv.1 == k <;> simp [h]

theorem lookup_map_ne (m : List (Nat × ℚ)) (k : Nat) (w : ℚ) (i : Nat) (hik : i ≠ k) :
    lookupScore (m.map (fun kv => if kv.1 == k then (kv.1, kv.2 + w) else kv)) i
      = lookupScore m i := by
  induction m with
  | nil => rfl
  | cons kv m ih =>
    rw [List.map_cons, lookupScore_cons, lookupScore_cons, scoreAdd_key_map]
    by_cases h : kv.1 = i
    · rw [if_pos h, if_pos h]
      have hne : (kv.1 == k) = false := beq_eq_false_iff_ne.mpr (by rw [h]; exact hik)
      rw [if_neg (by simp [hne])]
    · rw [if_neg h, if_neg h, ih]

theorem lookup_map_eqk (m : List (Nat × ℚ)) (k : Nat) (w : ℚ)
    (hany : m.any (fun kv => kv.1 == k) = true) :
    lookupScore (m.map (fun kv => if kv.1 == k then (kv.1, kv.2 + w) else kv)) k
      = lookupScore m k + w := by
  induction m with
  | nil => simp at hany
  | cons kv m ih =>
    rw [List.map_cons, lookupScore_cons, lookupScore_cons, scoreAdd_key_map]
    by_cases h : kv.1 = k
    · have hb : (kv.1 == k) = true := beq_iff_eq.mpr h
      rw [if_pos h, if_pos h, if_pos (by simp [hb])]
    · rw [if_neg h, if_neg h]
      apply ih
      rw [List.any_cons, Bool.or_eq_true] at hany
      rcases hany with h' | h'
      · exact absurd (beq_iff_eq.mp h') h
      · exact h'

theorem lookup_append_single (m : List (Nat × ℚ)) (k : Nat) (w : ℚ) (i : Nat)
    (hany : m.any (fun kv => kv.1 == k) = false) :
    lookupScore (m ++ [(k, w)]) i = lookupScore m i + (if i = k then w else 0) := by
  induction m with
  | nil =>
    rw [List.nil_append, lookupScore_cons, lookupScore_nil]
    by_cases h : i = k
    · rw [if_pos h.symm, if_pos h, zero_add]
    · rw [if_neg (fun e => h e.symm), if_neg h]
      simp
  | cons kv m ih =>
    rw [List.any_cons, Bool.or_eq_false_iff] at hany
    rw [List.cons_append, lookupScore_cons, lookupScore_cons]
    by_cases h : kv.1 = i
    · have hik : i ≠ k := fun e => (beq_eq_false_iff_ne.mp hany.1) (by rw [h, e])
      rw [if_pos h, if_pos h, if_neg hik, add_zero]
    · rw [if_neg h, if_neg h]
      exact ih hany.2

theorem lookupScore_scoreAdd (m : List (Nat × ℚ)) (k : Nat) (w : ℚ) (i : Nat) :
    lookupScore (scoreAdd m k w) i = lookupScore m i + (if i = k then w else 0) := by
  unfold scoreAdd
  by_cases hany : m.any (fun kv => kv.1 == k) = true
  · rw [if_pos hany]
    by_cases hik : i = k
    · subst hik
      rw [if_pos rfl, lookup_map_eqk m i w hany]
    · rw [if_neg hik, add_zero, lookup_map_ne m k w i hik]
  · rw [if_neg hany, lookup_append_single m k w i (Bool.not_eq_true _ ▸ hany)]

theorem lookupScore_foldl {α : Type} (key : α → Nat) (w : α → ℚ) :
    ∀ (l : List α) (m : List (Nat × ℚ)) (i : Nat),
      lookupScore (l.foldl (fun m a => scoreAdd m (key a) (w a)) m) i
        = lookupScore m i + ((l.filter (fun a => key a == i)).map w).sum := by
  intro l
  induction l with
  | nil =>
    intro m i
    simp
  | cons a l ih =>
    intro m i
    rw [List.foldl_cons, ih, lookupScore_scoreAdd]
    by_cases h : key a = i
    · rw [List.filter_cons, if_pos (show (key a == i) = true from beq_iff_eq.mpr h),
        List.map_cons, List.sum_cons, if_pos h.symm]
      ring
    · rw [List.filter_cons, if_neg (show ¬(key a == i) = true by simp [h]),
        if_neg (fun e => h e.symm), add_zero]

theorem sum_map_const {α : Type} (l : List α) (c : ℚ) :
    (l.map (fun _ => c)).sum = l.length * c := by
  rw [List.map_const', List.sum_replicate, nsmul_eq_mul]

/-- Additivity of fusion: the total score of a record id is the weighted sum
of its occurrences in the five strategy result lists. -/
theorem fusedScore_eq (q : String) (db : DB) (i : Nat) :
    fusedScore q db i
      = 100 * countId i (exact_search q db) + 80 * countId i (normalized_search q db)
        + 60 * countId i (soundex_search q db) + 40 * countId i (wildcard_search q db)
        + levContribution i (levenshtein_search q db 3) := by
  show lookupScore (scoresDict q db) i = _
  unfold scoresDict
  rw [lookupScore_foldl (fun rd : Person × Nat => rd.1.id)
      (fun rd : Person × Nat => 30 / ((rd.2 : ℚ) + 1)),
    lookupScore_foldl (fun r : Person => r.id) (fun _ : Person => (40 : ℚ)),
    lookupScore_foldl (fun r : Person => r.id) (fun _ : Person => (60 : ℚ)),
    lookupScore_foldl (fun r : Person => r.id) (fun _ : Person => (80 : ℚ)),
    lookupScore_foldl (fun r : Person => r.id) (fun _ : Person => (100 : ℚ)),
    lookupScore_nil]
  unfold countId levContribution
  rw [sum_map_const, sum_map_const, sum_map_const, sum_map_const]
  ring

/-! Counting facts used to pin down individual strategy contributions. -/

theorem exact_search_sublist (q : String) (db : DB) : (exact_search q db).Sublist db :=
  (List.take_sublist _ _).trans (List.filter_sublist db)

theorem normalized_search_sublist (q : String) (db : DB) :
    (normalized_search q db).Sublist db :=
  (List.take_sublist _ _).trans (List.filter_sublist db)

theorem soundex_search_sublist (q : String) (db : DB) : (soundex_search q db).Sublist db :=
  (List.take_sublist _ _).trans (List.filter_sublist db)

theorem wildcard_search_sublist (q : String) (db : DB) : (wildcard_search q db).Sublist db :=
  (List.take_sublist _ _).trans (List.filter_sublist db)

theorem countId_eq_zero {i : Nat} {l : List Person} (h : i ∉ l.map Person.id) :
    countId i l = 0 := by
  unfold countId
  rw [List.filter_eq_nil_iff.mpr ?_]
  · rfl
  · intro p hp hb
    exact h (List.mem_map.mpr ⟨p, hp, beq_iff_eq.mp hb⟩)

theorem levContribution_eq_zero {i : Nat} {l : List (Person × Nat)}
    (h : i ∉ l.map (fun rd => rd.1.id)) : levContribution i l = 0 := by
  unfold levContribution
  rw [List.filter_eq_nil_iff.mpr ?_]
  · rfl
  · intro rd hrd hb
    exact h (List.mem_map.mpr ⟨rd, hrd, beq_iff_eq.mp hb⟩)

theorem countId_eq_one {i : Nat} {r : Person} {l : List Person} {db : DB}
    (hl : l.Sublist db) (hnd : (db.map Person.id).Nodup) (hr : r ∈ l) (hi : r.id = i) :
    countId i l = 1 := by
  have hnodup : (l.map Person.id).Nodup := (hl.map Person.id).nodup hnd
  have h1 : (l.filter (fun p => p.id == i)).length = List.count i (l.map Person.id) := by
    rw [← List.countP_eq_length_filter, List.count, List.countP_map]
    rfl
  have hmem : i ∈ l.map Person.id := hi ▸ List.mem_map_of_mem Person.id hr
  have h2 : List.count i (l.map Person.id) = 1 := by
    have hle := List.nodup_iff_count_le_one.mp hnodup i
    have hge : 0 < List.count i (l.map Person.id) := List.count_pos_iff.mpr hmem
    omega
  unfold countId
  rw [h1, h2, Nat.cast_one]

/-! Fusion-ordering facts. -/

theorem combRel_total (s : List (Nat × ℚ)) :
    ∀ a b : Nat × Nat × Person, combRel s a b ∨ combRel s b a := by
  intro a b
  rcases lt_trichotomy (lookupScore s a.2.1) (lookupScore s b.2.1) with h | h | h
  · right
    left
    exact h
  · rcases Nat.le_total a.1 b.1 with hi | hi
    · left
      right
      exact ⟨h, hi⟩
    · right
      right
      exact ⟨h.symm, hi⟩
  · left
    left
    exact h

theorem combRel_trans (s : List (Nat × ℚ)) :
    ∀ a b c : Nat × Nat × Person, combRel s a b → combRel s b c → combRel s a c := by
  intro a b c hab hbc
  rcases hab with h1 | ⟨h1, h1i⟩ <;> rcases hbc with h2 | ⟨h2, h2i⟩
  · left
    exact h2.trans h1
  · left
    rw [← h2]
    exact h1
  · left
    rw [h1]
    exact h2
  · right
    exact ⟨h1.trans h2, h1i.trans h2i⟩

theorem foldl_preserve {α β : Type} (P : β → Prop) (f : β → α → β)
    (hstep : ∀ m a, P m → P (f m a)) : ∀ (l : List α) (m : β), P m → P (l.foldl f m) := by
  intro l
  induction l with
  | nil => exact fun m hm => hm
  | cons a l ih => exact fun m hm => ih _ (hstep m a hm)

theorem dictSet_inv {m : List (Nat × Person)} {k : Nat} {v : Person}
    (hm : ∀ kv ∈ m, kv.2.id = kv.1) (hv : v.id = k) :
    ∀ kv ∈ dictSet m k v, kv.2.id = kv.1 := by
  intro kv hkv
  unfold dictSet at hkv
  split at hkv
  · rcases List.mem_map.mp hkv with ⟨kv0, hkv0, he⟩
    rw [← he]
    by_cases h : kv0.1 == k
    · rw [if_pos h]
      show v.id = kv0.1
      rw [hv, beq_iff_eq.mp h]
    · rw [if_neg h]
      exact hm kv0 hkv0
  · rcases List.mem_append.mp hkv with h | h
    · exact hm kv h
    · rw [List.mem_singleton.mp h]
      exact hv

theorem dictInsertNew_inv {m : List (Nat × Person)} {k : Nat} {v : Person}
    (hm : ∀ kv ∈ m, kv.2.id = kv.1) (hv : v.id = k) :
    ∀ kv ∈ dictInsertNew m k v, kv.2.id = kv.1 := by
  intro kv hkv
  unfold dictInsertNew at hkv
  split at hkv
  · exact hm kv hkv
  · rcases List.mem_append.mp hkv with h | h
    · exact hm kv h
    · rw [List.mem_singleton.mp h]
      exact hv

theorem resultsDict_inv (q : String) (db : DB) :
    ∀ kv ∈ resultsDict q db, kv.2.id = kv.1 := by
  unfold resultsDict
  refine foldl_preserve (fun m : List (Nat × Person) => ∀ kv ∈ m, kv.2.id = kv.1) _
    (fun m rd hm => dictInsertNew_inv hm rfl) _ _ ?_
  refine foldl_preserve (fun m : List (Nat × Person) => ∀ kv ∈ m, kv.2.id = kv.1) _
    (fun m r hm => dictInsertNew_inv hm rfl) _ _ ?_
  refine foldl_preserve (fun m : List (Nat × Person) => ∀ kv ∈ m, kv.2.id = kv.1) _
    (fun m r hm => dictInsertNew_inv hm rfl) _ _ ?_
  refine foldl_preserve (fun m : List (Nat × Person) => ∀ kv ∈ m, kv.2.id = kv.1) _
    (fun m r hm => dictInsertNew_inv hm rfl) _ _ ?_
  refine foldl_preserve (fun m : List (Nat × Person) => ∀ kv ∈ m, kv.2.id = kv.1) _
    (fun m r hm => dictSet_inv hm rfl) _ _ ?_
  intro kv hkv
  exact absurd hkv (List.not_mem_nil kv)

theorem fusedRanking_pairwise (q : String) (db : DB) :
    (fusedRanking q db).Pairwise (combRel (scoresDict q db)) := by
  haveI : IsTotal (Nat × Nat × Person) (combRel (scoresDict q db)) := ⟨combRel_total _⟩
  haveI : IsTrans (Nat × Nat × Person) (combRel (scoresDict q db)) := ⟨combRel_trans _⟩
  exact List.sorted_insertionSort _ _

theorem fusedRanking_mem {q : String} {db : DB} {x : Nat × Nat × Person}
    (hx : x ∈ fusedRanking q db) : x.2 ∈ resultsDict q db := by
  have h1 : x ∈ (resultsDict q db).enum := (List.perm_insertionSort _ _).mem_iff.mp hx
  have h2 := List.enum_map_snd (resultsDict q db)
  rw [← h2]
  exact List.mem_map_of_mem Prod.snd h1

theorem fusedRanking_id {q : String} {db : DB} {x : Nat × Nat × Person}
    (hx : x ∈ fusedRanking q db) : x.2.2.id = x.2.1 :=
  resultsDict_inv q db x.2 (fusedRanking_mem hx)

/-! Levenshtein-strategy membership. -/

theorem mem_levResultsPre {q : String} {db : DB} {md : Nat} {p : Person} {d : Nat} :
    (p, d) ∈ levResultsPre q db md ↔
      p ∈ levCandidates q db ∧ (fieldDistances q p).min? = some d ∧ d ≤ md := by
  unfold levResultsPre
  rw [List.mem_filterMap]
  constructor
  · rintro ⟨a, ha, hfa⟩
    rcases hmin : (fieldDistances q a).min? with _ | d0
    · rw [hmin] at hfa
      exact absurd hfa (by simp)
    · rw [hmin] at hfa
      have hfa2 : (if d0 ≤ md then some (a, d0) else none) = some (p, d) := hfa
      by_cases hle : d0 ≤ md
      · rw [if_pos hle] at hfa2
        have h1 := Option.some.inj hfa2
        have hap : a = p := congrArg Prod.fst h1
        have hdd : d0 = d := congrArg Prod.snd h1
        subst hap
        subst hdd
        exact ⟨ha, hmin, hle⟩
      · rw [if_neg hle] at hfa2
        exact absurd hfa2 (by simp)
  · rintro ⟨hc, hmin, hle⟩
    refine ⟨p, hc, ?_⟩
    rw [hmin]
    show (if d ≤ md then some (p, d) else none) = some (p, d)
    rw [if_pos hle]

theorem mem_levenshtein_search {q : String} {db : DB} {md : Nat} {p : Person} {d : Nat}
    (h : (p, d) ∈ levenshtein_search q db md) : (p, d) ∈ levResultsPre q db md := by
  have h1 : (p, d) ∈ levSorted q db md := (List.take_sublist _ _).subset h
  exact (List.perm_insertionSort _ _).mem_iff.mp h1

/-! ### C1: ordering of equal total scores -/

/-- C1 counterexample: for query `ann` on a database listing id 2 before
id 1 (identical names), the two fused totals are equal and the combined
output is `[2, 1]` — not ascending record id.  The claimed ascending-id
tie-break does not exist in the code. -/
theorem c1_counterexample :
    (combined_search "ann" [cxP2, cxP1]).map Person.id = [2, 1] ∧
    fusedScore "ann" [cxP2, cxP1] 1 = fusedScore "ann" [cxP2, cxP1] 2 ∧
    cxP1.id < cxP2.id := by
  with_unfolding_all decide

/-- C1 amended: among fused results with equal total score, the combined
search orders them by their first-discovery (dict-insertion) position in
strategy order, not by record id; the full ranking is pairwise ordered so
that equal scores keep ascending insertion position. -/
theorem c1_claim (q : String) (db : DB) :
    (fusedRanking q db).Pairwise
      (fun a b => fusedScore q db a.2.1 = fusedScore q db b.2.1 → a.1 ≤ b.1) := by
  refine (fusedRanking_pairwise q db).imp ?_
  intro a b hab heq
  rcases hab with h | ⟨_, hi⟩
  · exact absurd heq (ne_of_gt h)
  · exact hi

/-! ### C2: empty query handling -/

/-- C2 counterexample: `combined_search ""` runs all strategies and returns a
non-empty result list (here via the wildcard `%%` scan and the unpruned
edit-distance pass); no `InvalidQuery` failure exists in the code. -/
theorem c2_counterexample : combined_search "" [cxEmptyQ] = [cxEmptyQ] := by
  with_unfolding_all decide

/-- C2 amended: a query that is empty after stripping is skipped by the
interactive loop without running any strategy (`continue`), rather than
failing with an `InvalidQuery` error; `combined_search` itself performs no
emptiness validation (see the counterexample). -/
theorem c2_claim (input : String) (db : DB) (h : pyStrip input = "") :
    interactive_step input db = InteractiveAction.skip := by
  unfold interactive_step
  rw [h]
  rfl

/-- Witness for C2 at a whitespace-only input. -/
theorem c2_witness : pyStrip "  " = "" ∧ interactive_step "  " [] = InteractiveAction.skip :=
  ⟨by decide, c2_claim "  " [] (by decide)⟩

/-! ### C3: the Normalized strategy's match condition -/

/-- C3 counterexample: (1) for query `A.B` and a record with first name
`A.B`, `normalize` maps both to the non-empty `ab`, yet the strategy returns
nothing, because the SQL side only strips spaces/apostrophes/hyphens and
keeps the dot; (2) for the all-punctuation query `...` (normalization empty)
the strategy does return a candidate — a record whose first name is `-`. -/
theorem c3_counterexample :
    (normalized_search "A.B" [cxDotted] = [] ∧
      normalize_string "A.B" = normalize_string cxDotted.first_name ∧
      normalize_string "A.B" ≠ "") ∧
    (normalized_search "..." [cxHyphen] = [cxHyphen] ∧ normalize_string "..." = "") := by
  with_unfolding_all decide

/-- C3 amended: the Normalized strategy produces a candidate for a record
exactly when removing spaces, apostrophes and hyphens from the lowercased
field equals `normalize(query)` for some field in {first, last, full} — the
two sides are normalized differently, and there is no special case for an
empty normalized query (stated below the 20-row cap). -/
theorem c3_claim (q : String) (db : DB) (p : Person)
    (h : (db.filter (fun p => sqlNameNormalize p.first_name == normalize_string q
        || sqlNameNormalize p.last_name == normalize_string q
        || sqlNameNormalize p.full_name == normalize_string q)).length ≤ 20) :
    p ∈ normalized_search q db ↔
      p ∈ db ∧ (sqlNameNormalize p.first_name = normalize_string q
        ∨ sqlNameNormalize p.last_name = normalize_string q
        ∨ sqlNameNormalize p.full_name = normalize_string q) := by
  show p ∈ (db.filter (fun p => sqlNameNormalize p.first_name == normalize_string q
      || sqlNameNormalize p.last_name == normalize_string q
      || sqlNameNormalize p.full_name == normalize_string q)).take 20 ↔ _
  rw [List.take_of_length_le h, List.mem_filter]
  simp [Bool.or_eq_true, beq_iff_eq, or_assoc]

/-- Witness for C3: query `Mary Ann` finds the record `MaryAnn Smith`. -/
theorem c3_witness :
    (([cxMaryAnn] : DB).filter (fun p => sqlNameNormalize p.first_name == normalize_string "Mary Ann"
        || sqlNameNormalize p.last_name == normalize_string "Mary Ann"
        || sqlNameNormalize p.full_name == normalize_string "Mary Ann")).length ≤ 20 ∧
    (cxMaryAnn ∈ normalized_search "Mary Ann" [cxMaryAnn] ↔
      cxMaryAnn ∈ ([cxMaryAnn] : DB) ∧ (sqlNameNormalize cxMaryAnn.first_name = normalize_string "Mary Ann"
        ∨ sqlNameNormalize cxMaryAnn.last_name = normalize_string "Mary Ann"
        ∨ sqlNameNormalize cxMaryAnn.full_name = normalize_string "Mary Ann")) :=
  ⟨by decide, c3_claim "Mary Ann" [cxMaryAnn] cxMaryAnn (by decide)⟩

/-! ### C4: top-K cut and descending order -/

/-- C4: for every non-empty query, combined_search returns at most 10 fused
results, sorted in non-increasing order of total accumulated score. -/
theorem c4_claim (q : String) (db : DB) (_h : q ≠ "") :
    (combined_search q db).length ≤ 10 ∧
    (combined_search q db).Pairwise (scoreGe q db) := by
  constructor
  · show (((fusedRanking q db).take 10).map (fun x => x.2.2)).length ≤ 10
    rw [List.length_map, List.length_take]
    exact min_le_left _ _
  · have hp2 : (fusedRanking q db).Pairwise
        (fun a b => fusedScore q db b.2.2.id ≤ fusedScore q db a.2.2.id) := by
      refine (fusedRanking_pairwise q db).imp_of_mem ?_
      intro a b ha hb hab
      have ia := fusedRanking_id ha
      have ib := fusedRanking_id hb
      show lookupScore (scoresDict q db) b.2.2.id ≤ lookupScore (scoresDict q db) a.2.2.id
      rw [ia, ib]
      rcases hab with h1 | ⟨h1, _⟩
      · exact le_of_lt h1
      · exact le_of_eq h1.symm
    have hp3 := List.Pairwise.sublist (List.take_sublist 10 (fusedRanking q db)) hp2
    show (((fusedRanking q db).take 10).map (fun x => x.2.2)).Pairwise (scoreGe q db)
    rw [List.pairwise_map]
    exact hp3

/-- Witness for C4 at query `ann` on a one-record database. -/
theorem c4_witness :
    ("ann" : String) ≠ "" ∧ (combined_search "ann" [cxMaryAnn]).length ≤ 10 ∧
    (combined_search "ann" [cxMaryAnn]).Pairwise (scoreGe "ann" [cxMaryAnn]) :=
  ⟨by decide, (c4_claim "ann" [cxMaryAnn] (by decide)).1,
    (c4_claim "ann" [cxMaryAnn] (by decide)).2⟩

/-! ### C5: additive scoring across strategies -/

/-- C5: scores are additive across strategies (see `fusedScore_eq`): on a
database with unique record ids, a record found by the Exact and Normalized
strategies and no other has total score 100 + 80 = 180, and a record found
only by the Substring (wildcard) strategy has total score 40, strictly
less. -/
theorem c5_claim (q : String) (db : DB) (r s : Person)
    (hnd : (db.map Person.id).Nodup)
    (hex : r ∈ exact_search q db) (hno : r ∈ normalized_search q db)
    (hso : r.id ∉ (soundex_search q db).map Person.id)
    (hwi : r.id ∉ (wildcard_search q db).map Person.id)
    (hle : r.id ∉ (levenshtein_search q db 3).map (fun rd => rd.1.id))
    (gwi : s ∈ wildcard_search q db)
    (gex : s.id ∉ (exact_search q db).map Person.id)
    (gno : s.id ∉ (normalized_search q db).map Person.id)
    (gso : s.id ∉ (soundex_search q db).map Person.id)
    (gle : s.id ∉ (levenshtein_search q db 3).map (fun rd => rd.1.id)) :
    fusedScore q db r.id = 180 ∧ fusedScore q db s.id = 40 ∧ (40 : ℚ) < 180 := by
  refine ⟨?_, ?_, by norm_num⟩
  · rw [fusedScore_eq,
      countId_eq_one (exact_search_sublist q db) hnd hex rfl,
      countId_eq_one (normalized_search_sublist q db) hnd hno rfl,
      countId_eq_zero hso, countId_eq_zero hwi, levContribution_eq_zero hle]
    norm_num
  · rw [fusedScore_eq,
      countId_eq_one (wildcard_search_sublist q db) hnd gwi rfl,
      countId_eq_zero gex, countId_eq_zero gno, countId_eq_zero gso,
      levContribution_eq_zero gle]
    norm_num

/-- Witness for C5: for query `a\b`, `cxX` is matched exactly (first name)
and by normalization (last name `a-b` normalizes to `ab`), while the escape
character keeps it out of both LIKE scans and twenty Soundex-equal blockers
push it out of the Soundex list; `cxY` is matched only by the substring
scan. -/
theorem c5_witness :
    (cxAdditiveDB.map Person.id).Nodup ∧
    cxX ∈ exact_search "a\\b" cxAdditiveDB ∧
    cxX ∈ normalized_search "a\\b" cxAdditiveDB ∧
    cxY ∈ wildcard_search "a\\b" cxAdditiveDB ∧
    fusedScore "a\\b" cxAdditiveDB cxX.id = 180 ∧
    fusedScore "a\\b" cxAdditiveDB cxY.id = 40 := by
  have h := c5_claim "a\\b" cxAdditiveDB cxX cxY (by decide) (by decide) (by decide)
    (by decide) (by decide) (by decide) (by decide) (by decide) (by decide) (by decide)
    (by decide)
  exact ⟨by decide, by decide, by decide, by decide, h.1, h.2.1⟩

/-! ### C6: edit-distance prefix pruning -/

/-- C6 counterexample: the pruning prefix is spliced into a LIKE pattern
unescaped, so for the length-3 query `a%b` the record `axb` (first three
characters of every field different from `a%b`) is still produced as an
edit-distance candidate, at distance 1. -/
theorem c6_counterexample :
    levenshtein_search "a%b" [cxMeta] 3 = [(cxMeta, 1)] ∧
    3 ≤ "a%b".length ∧
    (lowers cxMeta.first_name).take 3 ≠ (lowers "a%b").take 3 ∧
    (lowers cxMeta.last_name).take 3 ≠ (lowers "a%b").take 3 ∧
    (lowers cxMeta.full_name).take 3 ≠ (lowers "a%b").take 3 := by
  with_unfolding_all decide

/-- C6 amended: provided the first three characters of the query contain no
LIKE metacharacter (`%`, `_`, `\`), every record the EditDistance strategy
produces has a field that starts, case-insensitively, with the pruning
prefix (the first 3 characters, or the whole query when shorter). -/
theorem c6_claim (q : String) (db : DB) (md : Nat) (p : Person) (d : Nat)
    (hq : (q.toList.take 3).all likeFree = true)
    (hmem : (p, d) ∈ levenshtein_search q db md) :
    startsWithCI (levPrefix3 q) p.first_name = true
      ∨ startsWithCI (levPrefix3 q) p.last_name = true
      ∨ startsWithCI (levPrefix3 q) p.full_name = true := by
  have h1 := mem_levenshtein_search hmem
  have h2 : p ∈ levCandidates q db := (mem_levResultsPre.mp h1).1
  have h3 := (List.mem_filter.mp h2).2
  rw [Bool.or_eq_true, Bool.or_eq_true] at h3
  rcases h3 with (h | h) | h
  · left
    rw [← sqlLike_prefix3 q _ hq]
    exact h
  · right
    left
    rw [← sqlLike_prefix3 q _ hq]
    exact h
  · right
    right
    rw [← sqlLike_prefix3 q _ hq]
    exact h

/-- Witness for C6 at the metacharacter-free query `abc`. -/
theorem c6_witness :
    (("abc".toList.take 3).all likeFree = true) ∧
    ((cxNear, 1) ∈ levenshtein_search "abc" [cxNear] 3) ∧
    (startsWithCI (levPrefix3 "abc") cxNear.first_name = true
      ∨ startsWithCI (levPrefix3 "abc") cxNear.last_name = true
      ∨ startsWithCI (levPrefix3 "abc") cxNear.full_name = true) :=
  ⟨by decide, by decide, c6_claim "abc" [cxNear] 3 cxNear 1 (by decide) (by decide)⟩

/-! ### C7: edit-distance match condition and scoring -/

/-- C7 counterexample: the record `cxEmptyField` is a prefix-pruned candidate
for query `abc` and its first_name field is at Levenshtein distance 3 ≤ 3,
yet the strategy returns nothing: `if candidate[field]:` skips the empty
field, so the minimum is taken over non-empty fields only (5 and 6 here). -/
theorem c7_counterexample :
    levenshtein_search "abc" [cxEmptyField] 3 = [] ∧
    cxEmptyField ∈ levCandidates "abc" [cxEmptyField] ∧
    levenshtein (lowers "abc") (lowers cxEmptyField.first_name) = 3 := by
  with_unfolding_all decide

/-- C7 amended: before the top-20 truncation, the EditDistance strategy keeps
a prefix-pruned candidate exactly when the minimum case-insensitive
Levenshtein distance over its non-empty fields exists and is at most 3,
attaches that minimum as the candidate's distance, and fusion adds
`30 / (distance + 1)` per kept occurrence (see `levContribution`). -/
theorem c7_claim (q : String) (db : DB) :
    (∀ p d, (p, d) ∈ levResultsPre q db 3 ↔
      p ∈ levCandidates q db ∧ (fieldDistances q p).min? = some d ∧ d ≤ 3) ∧
    (∀ i, fusedScore q db i
      = 100 * countId i (exact_search q db) + 80 * countId i (normalized_search q db)
        + 60 * countId i (soundex_search q db) + 40 * countId i (wildcard_search q db)
        + levContribution i (levenshtein_search q db 3)) :=
  ⟨fun _ _ => mem_levResultsPre, fun i => fusedScore_eq q db i⟩

/-! ### C8: the Substring strategy -/

/-- C8 counterexample: for the query `a%b` the wildcard strategy matches the
record `axb` even though `a%b` is not a case-insensitive substring of any of
its fields — the query is spliced into the LIKE pattern unescaped. -/
theorem c8_counterexample :
    (wildcard_search "a%b" [cxMeta]).map Person.id = [1] ∧
    containsCI "a%b" cxMeta.first_name = false ∧
    containsCI "a%b" cxMeta.last_name = false ∧
    containsCI "a%b" cxMeta.full_name = false := by
  with_unfolding_all decide

/-- C8 amended: provided the query contains no LIKE metacharacter (`%`, `_`,
`\`), the Substring strategy returns exactly the first 20 records having the
query as a case-insensitive substring of first, last or full name, and each
occurrence in its result list contributes weight 40 to the fused total. -/
theorem c8_claim (q : String) (db : DB) (hq : q.toList.all likeFree = true) :
    wildcard_search q db
      = (db.filter (fun p => containsCI q p.first_name || containsCI q p.last_name
          || containsCI q p.full_name)).take 20 ∧
    ∀ i, fusedScore q db i
      = 100 * countId i (exact_search q db) + 80 * countId i (normalized_search q db)
        + 60 * countId i (soundex_search q db) + 40 * countId i (wildcard_search q db)
        + levContribution i (levenshtein_search q db 3) := by
  constructor
  · unfold wildcard_search
    congr 1
    apply List.filter_congr
    intro p _
    rw [sqlLike_wildcard q _ hq, sqlLike_wildcard q _ hq, sqlLike_wildcard q _ hq]
  · exact fun i => fusedScore_eq q db i

/-- Witness for C8 at the metacharacter-free query `ann`. -/
theorem c8_witness :
    ("ann".toList.all likeFree = true) ∧
    wildcard_search "ann" [cxMaryAnn]
      = (([cxMaryAnn] : DB).filter (fun p => containsCI "ann" p.first_name
          || containsCI "ann" p.last_name || containsCI "ann" p.full_name)).take 20 ∧
    fusedScore "ann" [cxMaryAnn] 1
      = 100 * countId 1 (exact_search "ann" [cxMaryAnn])
        + 80 * countId 1 (normalized_search "ann" [cxMaryAnn])
        + 60 * countId 1 (soundex_search "ann" [cxMaryAnn])
        + 40 * countId 1 (wildcard_search "ann" [cxMaryAnn])
        + levContribution 1 (levenshtein_search "ann" [cxMaryAnn] 3) :=
  ⟨by decide, (c8_claim "ann" [cxMaryAnn] (by decide)).1,
    (c8_claim "ann" [cxMaryAnn] (by decide)).2 1⟩

/-! ### C10: per-strategy truncation -/

set_option maxRecDepth 8000 in
/-- C10: every strategy truncates its list before fusion — Exact to 10 rows,
the other four to 20 — with the EditDistance list sorted by ascending
distance before its cut; consequently a record satisfying a strategy's match
condition can receive no weight from it: with 21 identical matchers, the
21st satisfies the wildcard condition but is absent from the wildcard list
(and here from every list, so its fused total is 0). -/
theorem c10_claim :
    (∀ q db, (exact_search q db).length ≤ 10 ∧ (normalized_search q db).length ≤ 20 ∧
      (soundex_search q db).length ≤ 20 ∧ (wildcard_search q db).length ≤ 20 ∧
      (levenshtein_search q db 3).length ≤ 20 ∧
      (levSorted q db 3).Pairwise (fun a b => a.2 ≤ b.2)) ∧
    (cxCap 21 ∈ cxCapDB ∧
      sqlLike (wildcardPattern "ann") (cxCap 21).first_name = true ∧
      cxCap 21 ∉ wildcard_search "ann" cxCapDB ∧
      fusedScore "ann" cxCapDB (cxCap 21).id = 0) := by
  constructor
  · intro q db
    refine ⟨?_, ?_, ?_, ?_, ?_, ?_⟩
    · show ((db.filter _).take 10).length ≤ 10
      rw [List.length_take]
      exact min_le_left _ _
    · show ((db.filter _).take 20).length ≤ 20
      rw [List.length_take]
      exact min_le_left _ _
    · show ((db.filter _).take 20).length ≤ 20
      rw [List.length_take]
      exact min_le_left _ _
    · show ((db.filter _).take 20).length ≤ 20
      rw [List.length_take]
      exact min_le_left _ _
    · show ((levSorted q db 3).take 20).length ≤ 20
      rw [List.length_take]
      exact min_le_left _ _
    · haveI : IsTotal (Person × Nat) (fun a b => a.2 ≤ b.2) :=
        ⟨fun a b => Nat.le_total a.2 b.2⟩
      haveI : IsTrans (Person × Nat) (fun a b => a.2 ≤ b.2) :=
        ⟨fun _ _ _ => Nat.le_trans⟩
      exact List.sorted_insertionSort _ _
  · refine ⟨by decide, by decide, by decide, ?_⟩
    with_unfolding_all decide

end FuzzySearch
